import Mathlib

/-!
# corpos-christie: configuration, percentage parsing, padding and shares

A shallow embedding of `config/config.go`, `lib/utils/utils.go` and the input and
display code of `gui/gui.go`, together with the shares rule that
`tax/tax_test.go` exercises.

Conventions of the embedding:

* Go `int` values are `Int`; no arithmetic of the embedded functions can leave
  the 64-bit range except where a range check is modelled explicitly.
* Go strings are Lean `String`s, processed as lists of characters. The only
  bytes the embedded functions distinguish are ASCII (`%`, `+`, `-`, `0`..`9`),
  so working on characters instead of bytes changes no outcome.
* A Go panic (index out of range) is the value `none`.
* `time.Now()` is not part of the state: the current year is a parameter.
-/

namespace CorposChristie

/-! ## config/config.go -/

/-- One of the tranches of a tax table (`config.Tranche`). -/
structure Tranche where
  Min : Int
  Max : Int
  Rate : String
  deriving DecidableEq, Repr

/-- The tranches of one fiscal year (`config.Tax`). -/
structure Tax where
  Year : Int
  Tranches : List Tranche
  deriving DecidableEq, Repr

/-- The program configuration (`config.Config`). -/
structure Config where
  Name : String
  Version : String
  Tax : CorposChristie.Tax
  TaxList : List CorposChristie.Tax
  deriving DecidableEq, Repr

/-- The `for _, tax := range cfg.TaxList` loop of `loadTaxYear`: the first entry
whose year is the current year replaces the selected table, and the loop stops
there; without such an entry the selected table `cur` is left as it was. -/
def loadTaxYearLoop (currentYear : Int) (cur : Tax) : List Tax → Tax
  | [] => cur
  | tax :: rest =>
    if tax.Year = currentYear then tax else loadTaxYearLoop currentYear cur rest

/-- The method `(cfg *Config) loadTaxYear()`, with the value of
`utils.GetCurrentYear()` as a parameter. `none` is the index-out-of-range panic
of `cfg.TaxList[0]`. -/
def loadTaxYear (currentYear : Int) (cfg : Config) : Option Config :=
  let cfg1 : Config := { cfg with Tax := loadTaxYearLoop currentYear cfg.Tax cfg.TaxList }
  if cfg1.Tax.Tranches.length = 0 then
    match cfg1.TaxList with
    | [] => none
    | first :: _ => some { cfg1 with Tax := first }
  else
    some cfg1

/-- The table that `LoadDefaultConfiguration` installs. -/
def defaultTax : Tax :=
  { Year := 2021
    Tranches :=
      [ { Min := 0, Max := 10084, Rate := "0%" },
        { Min := 10085, Max := 25710, Rate := "11%" },
        { Min := 25711, Max := 73516, Rate := "30%" },
        { Min := 73517, Max := 158122, Rate := "41%" },
        { Min := 158123, Max := 1000000, Rate := "45%" } ] }

/-- The method `(cfg *Config) LoadDefaultConfiguration()` (the log line apart). -/
def LoadDefaultConfiguration (cfg : Config) : Config :=
  { Name := "Corpos-Christie"
    Version := "1.0.0"
    Tax := defaultTax
    TaxList := cfg.TaxList ++ [defaultTax] }

/-- The table `CONFIG.Tax` of `tax_test.go` (year 2022, open-ended last tranche). -/
def testTax2022 : Tax :=
  { Year := 2022
    Tranches :=
      [ { Min := 0, Max := 10225, Rate := "0%" },
        { Min := 10226, Max := 26070, Rate := "11%" },
        { Min := 26071, Max := 74545, Rate := "30%" },
        { Min := 74546, Max := 160336, Rate := "41%" },
        { Min := 160337, Max := 9223372036854775807, Rate := "45%" } ] }

/-- The first entry of `CONFIG.TaxList` in `tax_test.go` (year 2022, capped). -/
def testEntry2022 : Tax :=
  { Year := 2022
    Tranches :=
      [ { Min := 0, Max := 10225, Rate := "0%" },
        { Min := 10226, Max := 26070, Rate := "11%" },
        { Min := 26071, Max := 74545, Rate := "30%" },
        { Min := 74546, Max := 160336, Rate := "41%" },
        { Min := 160337, Max := 1000000, Rate := "45%" } ] }

/-- The second entry of `CONFIG.TaxList` in `tax_test.go` (year 2021). -/
def testEntry2021 : Tax :=
  { Year := 2021
    Tranches :=
      [ { Min := 0, Max := 10084, Rate := "0%" },
        { Min := 10085, Max := 25710, Rate := "11%" },
        { Min := 25711, Max := 73516, Rate := "30%" },
        { Min := 73517, Max := 158122, Rate := "41%" },
        { Min := 158123, Max := 1000000, Rate := "45%" } ] }

/-- The third entry of `CONFIG.TaxList` in `tax_test.go` (year 2020). -/
def testEntry2020 : Tax :=
  { Year := 2020
    Tranches :=
      [ { Min := 0, Max := 10064, Rate := "0%" },
        { Min := 10065, Max := 25659, Rate := "11%" },
        { Min := 25660, Max := 73369, Rate := "30%" },
        { Min := 73370, Max := 157806, Rate := "41%" },
        { Min := 157807, Max := 1000000, Rate := "45%" } ] }

/-- The fourth entry of `CONFIG.TaxList` in `tax_test.go` (year 2019). -/
def testEntry2019 : Tax :=
  { Year := 2019
    Tranches :=
      [ { Min := 0, Max := 10064, Rate := "0%" },
        { Min := 10065, Max := 27794, Rate := "14%" },
        { Min := 27795, Max := 74517, Rate := "30%" },
        { Min := 74518, Max := 157806, Rate := "41%" },
        { Min := 157807, Max := 1000000, Rate := "45%" } ] }

/-- The list `CONFIG.TaxList` of `tax_test.go`: years 2022, 2021, 2020, 2019. -/
def testTaxList : List Tax :=
  [testEntry2022, testEntry2021, testEntry2020, testEntry2019]

/-- A configuration as `tax_test.go` builds its list, with no table selected yet. -/
def testConfigUnselected : Config :=
  { Name := "", Version := "", Tax := { Year := 0, Tranches := [] }, TaxList := testTaxList }

/-! ## lib/utils/utils.go, and the parts of `strings` and `strconv` it calls -/

/-- The two kinds of `*strconv.NumError` (`ErrSyntax`, `ErrRange`). -/
inductive NumError where
  | ErrSyntax
  | ErrRange
  deriving DecidableEq, Repr

/-- The function `strings.HasSuffix`. -/
def HasSuffix (s suffix : List Char) : Bool :=
  decide (s.length ≥ suffix.length) && (s.drop (s.length - suffix.length) == suffix)

/-- The function `strings.TrimSuffix`: `s` without the trailing `suffix`, once. -/
def TrimSuffix (s suffix : List Char) : List Char :=
  if HasSuffix s suffix then s.take (s.length - suffix.length) else s

/-- The largest `uint64`. -/
def maxUint64 : Nat := 2 ^ 64 - 1

/-- The loop of `strconv.ParseUint` for base 10 and 64 bits, from the value `n`
accumulated so far. The accumulator is a `uint64`: products and sums are taken
modulo `2 ^ 64`, as the overflow tests of the loop expect. -/
def parseUintLoop : List Char → Nat → Nat × Option NumError
  | [], n => (n, none)
  | c :: cs, n =>
    if '0' ≤ c ∧ c ≤ '9' then
      let d := c.toNat - '0'.toNat
      if n ≥ maxUint64 / 10 + 1 then
        (maxUint64, some NumError.ErrRange)
      else
        let n10 := (n * 10) % 2 ^ 64
        let n1 := (n10 + d) % 2 ^ 64
        if n1 < n10 ∨ n1 > maxUint64 then
          (maxUint64, some NumError.ErrRange)
        else
          parseUintLoop cs n1
    else
      (0, some NumError.ErrSyntax)

/-- The call `strconv.ParseUint(s, 10, 64)`. -/
def ParseUint (s : List Char) : Nat × Option NumError :=
  if s = [] then (0, some NumError.ErrSyntax) else parseUintLoop s 0

/-- The call `strconv.ParseInt(s, 10, 0)` on a 64-bit platform. -/
def ParseInt (s : List Char) : Int × Option NumError :=
  match s with
  | [] => (0, some NumError.ErrSyntax)
  | c :: cs =>
    let neg := decide (c = '-')
    let body := if c = '+' ∨ c = '-' then cs else c :: cs
    let r := ParseUint body
    if r.2 = some NumError.ErrSyntax then
      (0, r.2)
    else if ¬ neg ∧ r.1 ≥ 2 ^ 63 then
      (2 ^ 63 - 1, some NumError.ErrRange)
    else if neg ∧ r.1 > 2 ^ 63 then
      (-(2 ^ 63), some NumError.ErrRange)
    else if neg then
      (-(r.1 : Int), none)
    else
      ((r.1 : Int), none)

/-- The digit loop of the fast path of `strconv.Atoi`. -/
def atoiFastLoop : List Char → Int → Option Int
  | [], n => some n
  | c :: cs, n =>
    if '0' ≤ c ∧ c ≤ '9' then atoiFastLoop cs (n * 10 + ((c.toNat - '0'.toNat : Nat) : Int))
    else none

/-- The function `strconv.Atoi` on a 64-bit platform: the fast path for strings of
1 to 18 bytes, `ParseInt(s, 10, 0)` for the others. -/
def Atoi (s : List Char) : Int × Option NumError :=
  if 0 < s.length ∧ s.length < 19 then
    match s with
    | [] => (0, some NumError.ErrSyntax)
    | c :: cs =>
      let body := if c = '-' ∨ c = '+' then cs else c :: cs
      if body.length < 1 then
        (0, some NumError.ErrSyntax)
      else
        match atoiFastLoop body 0 with
        | none => (0, some NumError.ErrSyntax)
        | some n => if c = '-' then (-n, none) else (n, none)
  else
    ParseInt s

/-- The function `ConvertStringToInt`. -/
def ConvertStringToInt (str : String) : Int × Option NumError :=
  let r := Atoi str.toList
  if r.2 ≠ none then (0, r.2) else (r.1, none)

/-- The number of low bits that do not fit in the 53-bit significand of a double:
how many times `a` is halved before it is below `2 ^ 53`. -/
def excessBits : Nat → Nat → Nat
  | 0, _ => 0
  | fuel + 1, a => if a < 2 ^ 53 then 0 else excessBits fuel (a / 2) + 1

/-- The conversion `float64(i)` of a 64-bit integer, as the exact value of the
resulting double: an integer of magnitude below `2 ^ 53` is kept, a larger one is
rounded to 53 significant bits, to nearest and to even on a tie. -/
def float64OfInt (i : Int) : Int :=
  let a := i.natAbs
  if a < 2 ^ 53 then i
  else
    let e := excessBits a a
    let q := a / 2 ^ e
    let r := a % 2 ^ e
    let half := 2 ^ (e - 1)
    let q1 := if r > half ∨ (r = half ∧ q % 2 = 1) then q + 1 else q
    if i < 0 then -((q1 * 2 ^ e : Nat) : Int) else ((q1 * 2 ^ e : Nat) : Int)

/-- The function `ConvertPercentageToFloat64`. The `float64` result is given by
its exact value, a rational number. -/
def ConvertPercentageToFloat64 (str : String) : ℚ × Option NumError :=
  let s := TrimSuffix str.toList "%".toList
  let r := Atoi s
  let f : ℚ := (float64OfInt r.1 : ℚ)
  if r.2 ≠ none then (0, r.2) else (f, none)

/-! ### The words of the claims about percentages -/

/-- One decimal digit as a character. -/
def digitChar (d : Nat) : Char :=
  match d with
  | 0 => '0' | 1 => '1' | 2 => '2' | 3 => '3' | 4 => '4'
  | 5 => '5' | 6 => '6' | 7 => '7' | 8 => '8' | _ => '9'

/-- The decimal digits of a natural number, most significant first; `fuel` bounds
the number of digits after the first. -/
def natDecimalAux : Nat → Nat → List Char
  | 0, n => [digitChar (n % 10)]
  | fuel + 1, n =>
    if n < 10 then [digitChar n] else natDecimalAux fuel (n / 10) ++ [digitChar (n % 10)]

/-- The decimal notation of a natural number, without leading zeros. -/
def natDecimal (n : Nat) : List Char := natDecimalAux n n

/-- The decimal notation of an integer, `decimal(n)`: a minus sign for a negative
number, then the digits of its magnitude (what `strconv.Itoa` prints). -/
def decimal (n : Int) : String :=
  if n < 0 then String.mk ('-' :: natDecimal n.natAbs) else String.mk (natDecimal n.natAbs)

/-- The number that a list of decimal digits denotes. -/
def decimalValue (ds : List Char) : Nat :=
  ds.foldl (fun n c => n * 10 + (c.toNat - '0'.toNat)) 0

/-- The text `s` is an optionally signed decimal integer within the `int` range:
an optional `+` or `-`, then at least one digit, all digits, denoting a value
between `-2 ^ 63` and `2 ^ 63 - 1`. -/
def IsIntLiteral (s : List Char) : Prop :=
  ∃ sign digits, s = sign ++ digits
    ∧ (sign = [] ∨ sign = ['+'] ∨ sign = ['-'])
    ∧ digits ≠ []
    ∧ (∀ c ∈ digits, '0' ≤ c ∧ c ≤ '9')
    ∧ (if sign = ['-'] then decimalValue digits ≤ 2 ^ 63 else decimalValue digits < 2 ^ 63)

/-- The text `s` with one trailing percent sign removed, when it has one. -/
def withoutOnePercent (s : List Char) : List Char :=
  if s.getLast? = some '%' then s.dropLast else s

/-! ## The shares of the tax engine (`tax/tax.go`, known through `tax/tax_test.go`
and its callers)

Shares are multiples of one half; they are exact rational numbers here. -/

/-- Modelled from the spec: the household of a calculation, the type `user.User`
whose declaration is missing, with the fields that `tax_test.go` and `gui.go`
set: the income of the forward mode, the target remainder of the reverse mode,
the couple flag and the children count. -/
structure User where
  Income : Int
  Remainder : Int
  IsInCouple : Bool
  Children : Int
  deriving DecidableEq, Repr

/-- Modelled from the spec: the tax of one tranche in a result, a type of the
missing `tax/tax.go`: the boundaries of the tranche and its tax scaled to the
household, kept exact. -/
structure TaxTranche where
  Min : Int
  Max : Int
  Tax : ℚ
  deriving DecidableEq, Repr

/-- Modelled from the spec: the result of a calculation, the type `tax.Result` of
the missing `tax/tax.go`: income, tax and remainder are integers, the shares are
a real number. -/
structure Result where
  Income : Int
  Tax : Int
  Remainder : Int
  Shares : ℚ
  TaxTranches : List TaxTranche
  deriving DecidableEq, Repr

/-- Modelled from the spec: the share of the children in `getShares` of the
missing `tax/tax.go`, child after child: the first two children add half a share
each, the third and every later child add one share each. `k` is the number of
children counted so far, `n` the number of children still to count. -/
def childrenShares : Nat → Nat → ℚ → ℚ
  | _, 0, acc => acc
  | k, n + 1, acc => childrenShares (k + 1) n (if k < 2 then acc + 1 / 2 else acc + 1)

/-- Modelled from the spec: `getShares` of the missing `tax/tax.go`. The base is
1 share for a single person and 2 for a couple; the children add their shares;
a person who is not in couple and has at least one child gets half a share
more. The children count is not validated: a negative count counts no child. -/
def getShares (user : User) : ℚ :=
  let base : ℚ := if user.IsInCouple then 2 else 1
  let withChildren := childrenShares 0 user.Children.toNat base
  if ¬ user.IsInCouple ∧ user.Children ≥ 1 then withChildren + 1 / 2 else withChildren

/-! ### The words of the claim about the shares -/

/-- The constant `DEFAULT_PADDING`. -/
def DEFAULT_PADDING : Int := 10

/-- The built-in `len` of a Go string: its number of bytes. -/
def goLen (s : String) : Int := (s.utf8ByteSize : Int)

/-- The loop of `GetMaxLength`, from the maximum `maxIndexLength` found so far. -/
def getMaxLengthLoop : List String → Int → Int
  | [], maxIndexLength => maxIndexLength
  | v :: rest, maxIndexLength =>
    getMaxLengthLoop rest (if maxIndexLength < goLen v then goLen v else maxIndexLength)

/-- The function `GetMaxLength`. -/
def GetMaxLength (tab : List String) : Int := getMaxLengthLoop tab 0

/-- The function `getPadding`. -/
def getPadding (tab : List String) : Int := GetMaxLength tab

/-- The text `s` written `n` times. -/
def repeatLoop (s : String) : Nat → String
  | 0 => ""
  | n + 1 => repeatLoop s n ++ s

/-- The function `strings.Repeat`: `none` is its panic on a negative count. Its
other panic, on a result longer than an `int` can count, cannot occur for the
one-byte text that `SetPadding` repeats. -/
def Repeat (s : String) (count : Int) : Option String :=
  if count < 0 then none else some (repeatLoop s count.toNat)

/-- The function `SetPadding`. The gap stays within the `int` range for every
list of strings that fits in memory. -/
def SetPadding (tab : List String) (v : String) : Option String :=
  let padding := getPadding tab
  let gap := padding - goLen v + DEFAULT_PADDING
  Repeat " " gap

/-! ## gui/gui.go: the inputs and the display of `calculate` -/

/-- The conversion `int64(f)` of a `float64` within the `int64` range: the
fraction is discarded, towards zero. -/
def int64OfFloat (f : ℚ) : Int := if 0 ≤ f then Int.floor f else Int.ceil f

/-- The text that `calculate` sets on the `Shares` binding. The function
`utils.ConvertInt64ToString` is not in `utils.go`: it is the parameter
`convertInt64ToString`. -/
def sharesLabel (convertInt64ToString : Int → String) (result : Result) : String :=
  convertInt64ToString (int64OfFloat result.Shares)

/-- The constant `math.MaxInt64`. -/
def maxInt64 : Int := 9223372036854775807

/-- The label of the upper bound of a tranche in `Reload`: a dash for the bound
`math.MaxInt64`, the bound and the currency otherwise. The function
`utils.ConvertIntToString` is not in `utils.go`: it is the parameter
`convertIntToString`. -/
def maxTrancheLabel (convertIntToString : Int → String) (currency : String) (t : Tranche) :
    String :=
  if t.Max = maxInt64 then "-" else convertIntToString t.Max ++ " " ++ currency

/-- A result with the shares of a single parent of two children. -/
def resultOfSingleParent : Result :=
  { Income := 30000, Tax := 488, Remainder := 29512, Shares := 5 / 2, TaxTranches := [] }

end CorposChristie

/-! # Theorems -/

namespace CorposChristie

/-! ## Year selection (`loadTaxYear`) -/

theorem loadTaxYearLoop_first_match (y : Int) (cur t : Tax) (pre post : List Tax)
    (hpre : ∀ u ∈ pre, u.Year ≠ y) (ht : t.Year = y) :
    loadTaxYearLoop y cur (pre ++ t :: post) = t := by
  induction pre with
  | nil => simp [loadTaxYearLoop, ht]
  | cons u us ih =>
    have hu : u.Year ≠ y := hpre u (List.mem_cons_self u us)
    have hus : ∀ v ∈ us, v.Year ≠ y := fun v hv => hpre v (List.mem_cons_of_mem u hv)
    simp [loadTaxYearLoop, hu, ih hus]

theorem loadTaxYearLoop_no_match (y : Int) (cur : Tax) (l : List Tax)
    (hl : ∀ u ∈ l, u.Year ≠ y) : loadTaxYearLoop y cur l = cur := by
  induction l with
  | nil => rfl
  | cons u us ih =>
    have hu : u.Year ≠ y := hl u (List.mem_cons_self u us)
    have hus : ∀ v ∈ us, v.Year ≠ y := fun v hv => hl v (List.mem_cons_of_mem u hv)
    simp [loadTaxYearLoop, hu, ih hus]

/-- C5: when `TaxList` is `pre ++ t :: post` with no entry of `pre` in the current
year `y`, `t.Year = y` and `t` has at least one tranche, `loadTaxYear` completes
and the selected table `cfg.Tax` is exactly `t`, the first matching entry; the
other fields are left alone. -/
theorem loadTaxYear_selects_current_year (y : Int) (cfg : Config) (t : Tax)
    (pre post : List Tax) (hlist : cfg.TaxList = pre ++ t :: post)
    (hpre : ∀ u ∈ pre, u.Year ≠ y) (ht : t.Year = y) (hne : t.Tranches ≠ []) :
    loadTaxYear y cfg = some { cfg with Tax := t } := by
  have hloop : loadTaxYearLoop y cfg.Tax cfg.TaxList = t := by
    rw [hlist]; exact loadTaxYearLoop_first_match y cfg.Tax t pre post hpre ht
  have hlen : ¬ t.Tranches.length = 0 := by
    intro h; exact hne (List.length_eq_zero.mp h)
  simp only [loadTaxYear, hloop]
  rw [if_neg hlen]

/-- The witness of C5: in the list of `tax_test.go` the entry of 2021 is the
second one, and it is the one selected when the current year is 2021. -/
theorem loadTaxYear_selects_current_year_witness :
    loadTaxYear 2021 testConfigUnselected
      = some { testConfigUnselected with Tax := testEntry2021 } :=
  loadTaxYear_selects_current_year 2021 testConfigUnselected testEntry2021
    [testEntry2022] [testEntry2020, testEntry2019] (by decide) (by decide) (by decide)
    (by decide)

/-- C6, the code at the failing input: with the list of `tax_test.go` (2022, 2021,
2020, 2019), no selected table beforehand and the current year 2023, which no
entry has, `loadTaxYear` selects the first entry of the list, the table of 2022,
although the table of 2021 is in the list. -/
theorem loadTaxYear_fallback_is_first_entry :
    loadTaxYear 2023 testConfigUnselected
      = some { testConfigUnselected with Tax := testEntry2022 }
    ∧ testConfigUnselected.TaxList ≠ []
    ∧ testConfigUnselected.Tax.Tranches = []
    ∧ (∀ u ∈ testConfigUnselected.TaxList, u.Year ≠ 2023)
    ∧ testEntry2021 ∈ testConfigUnselected.TaxList
    ∧ testEntry2022.Year = 2022 := by
  refine ⟨by decide, by decide, by decide, by decide, by decide, by decide⟩

/-- C7 as stated fails: a configuration whose only table has no tranche goes
through `loadTaxYear` normally and ends with an empty selected table. -/
theorem loadTaxYear_can_select_empty_table :
    loadTaxYear 2023 { Name := "n", Version := "v", Tax := { Year := 0, Tranches := [] },
                       TaxList := [{ Year := 2020, Tranches := [] }] }
      = some { Name := "n", Version := "v", Tax := { Year := 2020, Tranches := [] },
               TaxList := [{ Year := 2020, Tranches := [] }] } := by
  decide

/-- C7 amended: when the first entry of `TaxList` (the fallback table) has at
least one tranche, every normal completion of `loadTaxYear` leaves a selected
table with at least one tranche. -/
theorem loadTaxYear_nonempty_of_first_nonempty (y : Int) (cfg cfg1 : Config)
    (hfirst : ∀ t, cfg.TaxList.head? = some t → t.Tranches ≠ [])
    (hrun : loadTaxYear y cfg = some cfg1) : cfg1.Tax.Tranches ≠ [] := by
  unfold loadTaxYear at hrun
  simp only at hrun
  split at hrun
  · rename_i hzero
    cases hl : cfg.TaxList with
    | nil => simp [hl] at hrun
    | cons first rest =>
      simp only [hl, Option.some.injEq] at hrun
      subst hrun
      exact hfirst first (by simp [hl])
  · rename_i hpos
    simp only [Option.some.injEq] at hrun
    subst hrun
    intro h
    exact hpos (by simpa using h)

/-- The witness of C7 amended, on the list of `tax_test.go` and the year 2023. -/
theorem loadTaxYear_nonempty_of_first_nonempty_witness :
    ({ testConfigUnselected with Tax := testEntry2022 } : Config).Tax.Tranches ≠ [] :=
  loadTaxYear_nonempty_of_first_nonempty 2023 testConfigUnselected
    { testConfigUnselected with Tax := testEntry2022 } (by decide) (by decide)

/-! ## The default configuration -/

/-- C10: the table installed by `LoadDefaultConfiguration` (year 2021) is not
empty, is sorted ascending by `Min`, starts at 0, has `Min ≤ Max` in every
tranche, and each tranche starts one unit after the previous one ends. -/
theorem default_table_well_formed (cfg : Config) :
    (LoadDefaultConfiguration cfg).Tax.Year = 2021
    ∧ (LoadDefaultConfiguration cfg).Tax.Tranches ≠ []
    ∧ List.Pairwise (fun t u : Tranche => t.Min ≤ u.Min) (LoadDefaultConfiguration cfg).Tax.Tranches
    ∧ (LoadDefaultConfiguration cfg).Tax.Tranches.head?.map (fun t => t.Min) = some 0
    ∧ (∀ t ∈ (LoadDefaultConfiguration cfg).Tax.Tranches, t.Min ≤ t.Max)
    ∧ List.Chain' (fun t u : Tranche => u.Min = t.Max + 1)
        (LoadDefaultConfiguration cfg).Tax.Tranches := by
  have htab : (LoadDefaultConfiguration cfg).Tax = defaultTax := rfl
  rw [htab]
  refine ⟨rfl, by decide, ?_, by decide, by decide, ?_⟩
  · simp [defaultTax]
  · simp [defaultTax]

/-! ## Percentage parsing (`ConvertPercentageToFloat64`) -/

theorem digit_bounds (c : Char) (h : '0' ≤ c ∧ c ≤ '9') :
    48 ≤ c.toNat ∧ c.toNat ≤ 57 := ⟨h.1, h.2⟩

theorem digit_value_le (c : Char) (h : '0' ≤ c ∧ c ≤ '9') : c.toNat - '0'.toNat ≤ 9 := by
  have hb := digit_bounds c h
  have h0 : '0'.toNat = 48 := rfl
  omega

theorem foldl_digits_ge (ds : List Char) (n : Nat) :
    n ≤ ds.foldl (fun n c => n * 10 + (c.toNat - '0'.toNat)) n := by
  induction ds generalizing n with
  | nil => simp
  | cons c cs ih =>
    simp only [List.foldl_cons]
    have := ih (n * 10 + (c.toNat - '0'.toNat))
    omega

/-- The loop of `ParseUint` on digits only: the value when it fits 64 bits, the
range error otherwise. -/
theorem parseUintLoop_digits (ds : List Char) (n : Nat)
    (hd : ∀ c ∈ ds, '0' ≤ c ∧ c ≤ '9') (hn : n ≤ maxUint64) :
    parseUintLoop ds n =
      if ds.foldl (fun n c => n * 10 + (c.toNat - '0'.toNat)) n ≤ maxUint64
      then (ds.foldl (fun n c => n * 10 + (c.toNat - '0'.toNat)) n, none)
      else (maxUint64, some NumError.ErrRange) := by
  induction ds generalizing n with
  | nil => simp [parseUintLoop, hn]
  | cons c cs ih =>
    have hc : '0' ≤ c ∧ c ≤ '9' := hd c (List.mem_cons_self c cs)
    have hcs : ∀ x ∈ cs, '0' ≤ x ∧ x ≤ '9' := fun x hx => hd x (List.mem_cons_of_mem c hx)
    have hle := digit_value_le c hc
    have hge := foldl_digits_ge cs (n * 10 + (c.toNat - '0'.toNat))
    simp only [parseUintLoop, hc, and_self, if_true, List.foldl_cons]
    have hmax : maxUint64 = 18446744073709551615 := by decide
    have hpow : (2 : Nat) ^ 64 = 18446744073709551616 := by decide
    by_cases hcut : n ≥ maxUint64 / 10 + 1
    · rw [if_pos hcut]
      rw [if_neg]
      rw [hmax] at hcut ⊢
      omega
    · rw [if_neg hcut]
      have hn10 : n * 10 % 2 ^ 64 = n * 10 := by
        apply Nat.mod_eq_of_lt
        rw [hmax] at hcut
        omega
      rw [hn10]
      by_cases hfit : n * 10 + (c.toNat - '0'.toNat) ≤ maxUint64
      · have hmod : (n * 10 + (c.toNat - '0'.toNat)) % 2 ^ 64 = n * 10 + (c.toNat - '0'.toNat) := by
          apply Nat.mod_eq_of_lt
          rw [hmax] at hfit
          omega
        rw [hmod, if_neg (by omega)]
        exact ih (n * 10 + (c.toNat - '0'.toNat)) hcs hfit
      · have hwrap : (n * 10 + (c.toNat - '0'.toNat)) % 2 ^ 64
            = n * 10 + (c.toNat - '0'.toNat) - 2 ^ 64 := by
          rw [hmax] at hfit hcut
          rw [Nat.mod_eq_sub_mod (by omega)]
          apply Nat.mod_eq_of_lt
          omega
        rw [hwrap, if_pos, if_neg (by omega)]
        left
        rw [hmax] at hfit
        omega

/-- The loop of `ParseUint` stops with an error on a text that has a character
other than a digit; the error is the syntax error, or the range error together
with the value `maxUint64`. -/
theorem parseUintLoop_nondigit (ds : List Char) (n : Nat)
    (hd : ∃ c ∈ ds, ¬ ('0' ≤ c ∧ c ≤ '9')) :
    parseUintLoop ds n = (0, some NumError.ErrSyntax)
      ∨ parseUintLoop ds n = (maxUint64, some NumError.ErrRange) := by
  induction ds generalizing n with
  | nil => obtain ⟨c, hc, _⟩ := hd; simp at hc
  | cons c cs ih =>
    by_cases hc : '0' ≤ c ∧ c ≤ '9'
    · have hrest : ∃ x ∈ cs, ¬ ('0' ≤ x ∧ x ≤ '9') := by
        obtain ⟨x, hx, hnx⟩ := hd
        rcases List.mem_cons.mp hx with rfl | hx
        · exact absurd hc hnx
        · exact ⟨x, hx, hnx⟩
      simp only [parseUintLoop, hc, and_self, if_true]
      split
      · right; rfl
      · split
        · right; rfl
        · exact ih _ hrest
    · left
      simp only [parseUintLoop]
      rw [if_neg hc]

theorem parseUint_digits (ds : List Char) (hne : ds ≠ [])
    (hd : ∀ c ∈ ds, '0' ≤ c ∧ c ≤ '9') :
    ParseUint ds =
      if decimalValue ds ≤ maxUint64 then (decimalValue ds, none)
      else (maxUint64, some NumError.ErrRange) := by
  unfold ParseUint
  rw [if_neg hne]
  exact parseUintLoop_digits ds 0 hd (Nat.zero_le _)

theorem parseUint_not_digits (ds : List Char)
    (hd : ds = [] ∨ ∃ c ∈ ds, ¬ ('0' ≤ c ∧ c ≤ '9')) :
    ParseUint ds = (0, some NumError.ErrSyntax)
      ∨ ParseUint ds = (maxUint64, some NumError.ErrRange) := by
  unfold ParseUint
  by_cases hne : ds = []
  · left; rw [if_pos hne]
  · rw [if_neg hne]
    rcases hd with h | h
    · exact absurd h hne
    · exact parseUintLoop_nondigit ds 0 h

/-- The fast loop of `Atoi` on digits only, from the value `n`. -/
theorem atoiFastLoop_digits (ds : List Char) (n : Nat)
    (hd : ∀ c ∈ ds, '0' ≤ c ∧ c ≤ '9') :
    atoiFastLoop ds (n : Int)
      = some ((ds.foldl (fun n c => n * 10 + (c.toNat - '0'.toNat)) n : Nat) : Int) := by
  induction ds generalizing n with
  | nil => simp [atoiFastLoop]
  | cons c cs ih =>
    have hc : '0' ≤ c ∧ c ≤ '9' := hd c (List.mem_cons_self c cs)
    have hcs : ∀ x ∈ cs, '0' ≤ x ∧ x ≤ '9' := fun x hx => hd x (List.mem_cons_of_mem c hx)
    simp only [atoiFastLoop, hc, and_self, if_true, List.foldl_cons]
    have := ih (n * 10 + (c.toNat - '0'.toNat)) hcs
    rw [← this]
    push_cast
    rfl

theorem atoiFastLoop_nondigit (ds : List Char) (n : Int)
    (hd : ∃ c ∈ ds, ¬ ('0' ≤ c ∧ c ≤ '9')) : atoiFastLoop ds n = none := by
  induction ds generalizing n with
  | nil => obtain ⟨c, hc, _⟩ := hd; simp at hc
  | cons c cs ih =>
    by_cases hc : '0' ≤ c ∧ c ≤ '9'
    · have hrest : ∃ x ∈ cs, ¬ ('0' ≤ x ∧ x ≤ '9') := by
        obtain ⟨x, hx, hnx⟩ := hd
        rcases List.mem_cons.mp hx with rfl | hx
        · exact absurd hc hnx
        · exact ⟨x, hx, hnx⟩
      simp only [atoiFastLoop, hc, and_self, if_true]
      exact ih _ hrest
    · simp only [atoiFastLoop]
      rw [if_neg hc]

/-- A run of `k` digits from the value `n` stays below `(n + 1) * 10 ^ k`. -/
theorem foldl_digits_lt (ds : List Char) (n : Nat)
    (hd : ∀ c ∈ ds, '0' ≤ c ∧ c ≤ '9') :
    ds.foldl (fun n c => n * 10 + (c.toNat - '0'.toNat)) n < (n + 1) * 10 ^ ds.length := by
  induction ds generalizing n with
  | nil => simp
  | cons c cs ih =>
    have hc : '0' ≤ c ∧ c ≤ '9' := hd c (List.mem_cons_self c cs)
    have hcs : ∀ x ∈ cs, '0' ≤ x ∧ x ≤ '9' := fun x hx => hd x (List.mem_cons_of_mem c hx)
    have hle := digit_value_le c hc
    simp only [List.foldl_cons, List.length_cons]
    have h1 := ih (n * 10 + (c.toNat - '0'.toNat)) hcs
    have h2 : (n * 10 + (c.toNat - '0'.toNat) + 1) * 10 ^ cs.length
        ≤ (n + 1) * 10 ^ (cs.length + 1) := by
      rw [pow_succ, ← mul_assoc, mul_comm ((n + 1) * 10 ^ cs.length) 10, ← mul_assoc]
      apply Nat.mul_le_mul_right
      omega
    omega

theorem decimalValue_lt (ds : List Char) (hd : ∀ c ∈ ds, '0' ≤ c ∧ c ≤ '9') :
    decimalValue ds < 10 ^ ds.length := by
  have := foldl_digits_lt ds 0 hd
  simpa [decimalValue] using this

/-- The result of `ParseInt` on a sign and digits: the signed value inside the
64-bit range, the range error outside. -/
theorem ParseInt_cons_digits (c : Char) (cs : List Char)
    (hne : (if c = '+' ∨ c = '-' then cs else c :: cs) ≠ [])
    (hd : ∀ x ∈ (if c = '+' ∨ c = '-' then cs else c :: cs), '0' ≤ x ∧ x ≤ '9') :
    ParseInt (c :: cs) =
      if c = '-' then
        (if decimalValue (if c = '+' ∨ c = '-' then cs else c :: cs) ≤ 2 ^ 63
         then (-(decimalValue (if c = '+' ∨ c = '-' then cs else c :: cs) : Int), none)
         else (-(2 ^ 63), some NumError.ErrRange))
      else
        (if decimalValue (if c = '+' ∨ c = '-' then cs else c :: cs) < 2 ^ 63
         then ((decimalValue (if c = '+' ∨ c = '-' then cs else c :: cs) : Int), none)
         else (2 ^ 63 - 1, some NumError.ErrRange)) := by
  generalize hbody : (if c = '+' ∨ c = '-' then cs else c :: cs) = body at hne hd
  have hmax : maxUint64 = 18446744073709551615 := by decide
  have hpow : (2 : Nat) ^ 63 = 9223372036854775808 := by decide
  simp only [ParseInt, hbody]
  rw [parseUint_digits body hne hd]
  by_cases hfit : decimalValue body ≤ maxUint64
  · rw [if_pos hfit]
    by_cases hneg : c = '-'
    · simp only [hneg, decide_True, if_true]
      by_cases hr : decimalValue body ≤ 2 ^ 63
      · have hr1 : ¬ decimalValue body > 2 ^ 63 := by omega
        rw [hpow] at hr hr1
        simp [hr, hr1]
      · have hr1 : decimalValue body > 2 ^ 63 := by omega
        rw [hpow] at hr hr1
        simp [hr, hr1]
    · simp only [hneg, decide_False, if_false]
      by_cases hr : decimalValue body < 2 ^ 63
      · have hr1 : ¬ decimalValue body ≥ 2 ^ 63 := by omega
        rw [hpow] at hr hr1
        simp [hr, hr1]
      · have hr1 : decimalValue body ≥ 2 ^ 63 := by omega
        rw [hpow] at hr hr1
        simp [hr, hr1]
  · rw [if_neg hfit]
    rw [hmax] at hfit
    by_cases hneg : c = '-'
    · simp only [hneg, decide_True, if_true]
      have hr : ¬ decimalValue body ≤ 2 ^ 63 := by omega
      rw [hpow] at hr
      simp [hr, hmax]
    · simp only [hneg, decide_False, if_false]
      have hr : ¬ decimalValue body < 2 ^ 63 := by omega
      rw [hpow] at hr
      simp [hr, hmax]

theorem ParseInt_cons_bad (c : Char) (cs : List Char)
    (hbad : (if c = '+' ∨ c = '-' then cs else c :: cs) = []
      ∨ ∃ x ∈ (if c = '+' ∨ c = '-' then cs else c :: cs), ¬ ('0' ≤ x ∧ x ≤ '9')) :
    (ParseInt (c :: cs)).2 ≠ none := by
  generalize hbody : (if c = '+' ∨ c = '-' then cs else c :: cs) = body at hbad
  have hmax : maxUint64 = 18446744073709551615 := by decide
  simp only [ParseInt, hbody]
  rcases parseUint_not_digits body hbad with h | h
  · rw [h]; simp
  · rw [h, hmax]
    by_cases hneg : c = '-'
    · simp [hneg]
    · simp [hneg]

/-- The result of `Atoi` on an optional sign followed by digits only. -/
theorem Atoi_cons_digits (c : Char) (cs : List Char)
    (hne : (if c = '+' ∨ c = '-' then cs else c :: cs) ≠ [])
    (hd : ∀ x ∈ (if c = '+' ∨ c = '-' then cs else c :: cs), '0' ≤ x ∧ x ≤ '9') :
    Atoi (c :: cs) =
      if c = '-' then
        (if decimalValue (if c = '+' ∨ c = '-' then cs else c :: cs) ≤ 2 ^ 63
         then (-(decimalValue (if c = '+' ∨ c = '-' then cs else c :: cs) : Int), none)
         else (-(2 ^ 63), some NumError.ErrRange))
      else
        (if decimalValue (if c = '+' ∨ c = '-' then cs else c :: cs) < 2 ^ 63
         then ((decimalValue (if c = '+' ∨ c = '-' then cs else c :: cs) : Int), none)
         else (2 ^ 63 - 1, some NumError.ErrRange)) := by
  by_cases hlen : 0 < (c :: cs).length ∧ (c :: cs).length < 19
  · have hbodyeq : (if c = '-' ∨ c = '+' then cs else c :: cs)
        = (if c = '+' ∨ c = '-' then cs else c :: cs) := by
      by_cases h1 : c = '+' <;> by_cases h2 : c = '-' <;> simp [h1, h2]
    have hblen : (if c = '+' ∨ c = '-' then cs else c :: cs).length ≤ 18 := by
      have h19 := hlen.2
      split
      · simp only [List.length_cons] at h19; omega
      · omega
    unfold Atoi
    rw [if_pos hlen]
    simp only [hbodyeq]
    generalize hbody : (if c = '+' ∨ c = '-' then cs else c :: cs) = body at hne hd hblen
    have hpos : ¬ body.length < 1 := by
      intro h
      exact hne (List.length_eq_zero.mp (by omega))
    rw [if_neg hpos]
    have hfast := atoiFastLoop_digits body 0 hd
    rw [Nat.cast_zero] at hfast
    rw [hfast]
    have hval : decimalValue body < 2 ^ 63 := by
      have h1 := decimalValue_lt body hd
      have h2 : 10 ^ body.length ≤ 10 ^ 18 := Nat.pow_le_pow_right (by decide) hblen
      have h3 : (10 : Nat) ^ 18 < 2 ^ 63 := by decide
      omega
    have hval2 : decimalValue body ≤ 2 ^ 63 := Nat.le_of_lt hval
    simp only [decimalValue] at hval hval2 ⊢
    rw [if_pos hval, if_pos hval2]
  · unfold Atoi
    rw [if_neg hlen]
    exact ParseInt_cons_digits c cs hne hd

theorem Atoi_cons_bad (c : Char) (cs : List Char)
    (hbad : (if c = '+' ∨ c = '-' then cs else c :: cs) = []
      ∨ ∃ x ∈ (if c = '+' ∨ c = '-' then cs else c :: cs), ¬ ('0' ≤ x ∧ x ≤ '9')) :
    (Atoi (c :: cs)).2 ≠ none := by
  by_cases hlen : 0 < (c :: cs).length ∧ (c :: cs).length < 19
  · have hbodyeq : (if c = '-' ∨ c = '+' then cs else c :: cs)
        = (if c = '+' ∨ c = '-' then cs else c :: cs) := by
      by_cases h1 : c = '+' <;> by_cases h2 : c = '-' <;> simp [h1, h2]
    unfold Atoi
    rw [if_pos hlen]
    simp only [hbodyeq]
    generalize hbody : (if c = '+' ∨ c = '-' then cs else c :: cs) = body at hbad
    by_cases hpos : body.length < 1
    · rw [if_pos hpos]; simp
    · rw [if_neg hpos]
      rcases hbad with h | h
      · exact absurd (by simp [h]) hpos
      · rw [atoiFastLoop_nondigit body 0 h]; simp
  · unfold Atoi
    rw [if_neg hlen]
    exact ParseInt_cons_bad c cs hbad

theorem Atoi_nil : (Atoi []).2 ≠ none := by decide

theorem not_isIntLiteral_nil : ¬ IsIntLiteral [] := by
  rintro ⟨sign, digits, hs, _, hne, _, _⟩
  have := List.append_eq_nil.mp hs.symm
  exact hne this.2

theorem digit_ne_sign (c : Char) (h : '0' ≤ c ∧ c ≤ '9') : c ≠ '+' ∧ c ≠ '-' := by
  have hb := digit_bounds c h
  constructor
  · rintro rfl
    have : '+'.toNat = 43 := rfl
    omega
  · rintro rfl
    have : '-'.toNat = 45 := rfl
    omega

/-- An integer literal, read from its first character: the sign is decided by
that character, and what follows the sign is a non-empty run of digits in range. -/
theorem isIntLiteral_cons_iff (c : Char) (cs : List Char) :
    IsIntLiteral (c :: cs) ↔
      (if c = '+' ∨ c = '-' then cs else c :: cs) ≠ []
      ∧ (∀ x ∈ (if c = '+' ∨ c = '-' then cs else c :: cs), '0' ≤ x ∧ x ≤ '9')
      ∧ (if c = '-' then decimalValue (if c = '+' ∨ c = '-' then cs else c :: cs) ≤ 2 ^ 63
         else decimalValue (if c = '+' ∨ c = '-' then cs else c :: cs) < 2 ^ 63) := by
  constructor
  · rintro ⟨sign, digits, hs, hsign, hne, hd, hr⟩
    rcases hsign with rfl | rfl | rfl
    · simp only [List.nil_append] at hs
      subst hs
      have hc := digit_ne_sign c (hd c (List.mem_cons_self c cs))
      have hnot : ¬ (c = '+' ∨ c = '-') := by
        rintro (h | h)
        · exact hc.1 h
        · exact hc.2 h
      rw [if_neg hnot, if_neg hc.2]
      refine ⟨hne, hd, ?_⟩
      simpa using hr
    · simp only [List.singleton_append, List.cons.injEq] at hs
      obtain ⟨rfl, rfl⟩ := hs
      refine ⟨by simpa using hne, by simpa using hd, ?_⟩
      have hpm : ¬ ('+' = '-') := by decide
      rw [if_neg hpm]
      simpa using hr
    · simp only [List.singleton_append, List.cons.injEq] at hs
      obtain ⟨rfl, rfl⟩ := hs
      refine ⟨by simpa using hne, by simpa using hd, ?_⟩
      simpa using hr
  · rintro ⟨hne, hd, hr⟩
    by_cases hminus : c = '-'
    · subst hminus
      simp only [or_true, if_true] at hne hd hr
      exact ⟨['-'], cs, rfl, Or.inr (Or.inr rfl), hne, hd, by simpa using hr⟩
    · by_cases hplus : c = '+'
      · subst hplus
        simp only [true_or, if_true] at hne hd
        rw [if_neg hminus] at hr
        simp only [true_or, if_true] at hr
        exact ⟨['+'], cs, rfl, Or.inr (Or.inl rfl), hne, hd, by simpa using hr⟩
      · have hnot : ¬ (c = '+' ∨ c = '-') := by
          rintro (h | h)
          · exact hplus h
          · exact hminus h
        rw [if_neg hnot] at hne hd
        rw [if_neg hminus, if_neg hnot] at hr
        exact ⟨[], c :: cs, rfl, Or.inl rfl, hne, hd, by simpa using hr⟩

/-- What `Atoi` accepts: exactly the integer literals within the `int` range. -/
theorem Atoi_ok_iff (s : List Char) : (Atoi s).2 = none ↔ IsIntLiteral s := by
  cases s with
  | nil =>
    constructor
    · intro h; exact absurd h Atoi_nil
    · intro h; exact absurd h not_isIntLiteral_nil
  | cons c cs =>
    rw [isIntLiteral_cons_iff]
    by_cases hgood : (if c = '+' ∨ c = '-' then cs else c :: cs) ≠ []
        ∧ (∀ x ∈ (if c = '+' ∨ c = '-' then cs else c :: cs), '0' ≤ x ∧ x ≤ '9')
    · rw [Atoi_cons_digits c cs hgood.1 hgood.2]
      generalize (if c = '+' ∨ c = '-' then cs else c :: cs) = body at hgood ⊢
      by_cases hneg : c = '-'
      · rw [if_pos hneg, if_pos hneg]
        by_cases hr : decimalValue body ≤ 2 ^ 63
        · rw [if_pos hr]
          exact ⟨fun _ => ⟨hgood.1, hgood.2, hr⟩, fun _ => rfl⟩
        · rw [if_neg hr]
          exact ⟨fun h => by simp at h, fun h => absurd h.2.2 hr⟩
      · rw [if_neg hneg, if_neg hneg]
        by_cases hr : decimalValue body < 2 ^ 63
        · rw [if_pos hr]
          exact ⟨fun _ => ⟨hgood.1, hgood.2, hr⟩, fun _ => rfl⟩
        · rw [if_neg hr]
          exact ⟨fun h => by simp at h, fun h => absurd h.2.2 hr⟩
    · have hbad : (if c = '+' ∨ c = '-' then cs else c :: cs) = []
          ∨ ∃ x ∈ (if c = '+' ∨ c = '-' then cs else c :: cs), ¬ ('0' ≤ x ∧ x ≤ '9') := by
        by_contra hcon
        push_neg at hcon
        exact hgood ⟨hcon.1, fun x hx => hcon.2 x hx⟩
      constructor
      · intro h; exact absurd h (Atoi_cons_bad c cs hbad)
      · intro h; exact absurd ⟨h.1, h.2.1⟩ hgood

/-- The value of `Atoi` on a sign and digits in range. -/
theorem Atoi_sign_digits (neg : Bool) (digits : List Char) (hne : digits ≠ [])
    (hd : ∀ x ∈ digits, '0' ≤ x ∧ x ≤ '9')
    (hr : if neg then decimalValue digits ≤ 2 ^ 63 else decimalValue digits < 2 ^ 63) :
    Atoi ((if neg then ['-'] else []) ++ digits)
      = (if neg then -(decimalValue digits : Int) else (decimalValue digits : Int), none) := by
  cases neg with
  | true =>
    simp only [if_true, List.singleton_append] at hr ⊢
    have h := Atoi_cons_digits '-' digits (by simpa using hne) (by simpa using hd)
    simp only [or_true, if_true] at h
    rw [h, if_pos hr]
  | false =>
    simp only [Bool.false_eq_true, if_false, List.nil_append] at hr ⊢
    cases digits with
    | nil => exact absurd rfl hne
    | cons c cs =>
      have hc := digit_ne_sign c (hd c (List.mem_cons_self c cs))
      have hnot : ¬ (c = '+' ∨ c = '-') := by
        rintro (h | h)
        · exact hc.1 h
        · exact hc.2 h
      have h := Atoi_cons_digits c cs (by rw [if_neg hnot]; simp) (by rw [if_neg hnot]; exact hd)
      rw [if_neg hc.2, if_neg hnot] at h
      rw [h, if_pos hr]

theorem trimSuffix_percent (s : List Char) :
    TrimSuffix s "%".toList = withoutOnePercent s := by
  have hp : "%".toList = ['%'] := rfl
  rw [hp]
  unfold TrimSuffix withoutOnePercent HasSuffix
  rcases List.eq_nil_or_concat s with rfl | ⟨l, a, rfl⟩
  · simp
  · by_cases ha : a = '%'
    · subst ha; simp
    · simp [ha]

theorem digitChar_isDigit (d : Nat) : '0' ≤ digitChar d ∧ digitChar d ≤ '9' := by
  unfold digitChar
  split <;> decide

theorem digitChar_value (d : Nat) (h : d < 10) : (digitChar d).toNat - '0'.toNat = d := by
  interval_cases d <;> rfl

theorem decimalValue_append_singleton (ds : List Char) (c : Char) :
    decimalValue (ds ++ [c]) = decimalValue ds * 10 + (c.toNat - '0'.toNat) := by
  simp [decimalValue, List.foldl_append]

/-- The digits that `natDecimalAux` writes are digits, there is at least one, and
they denote the number written, as soon as the fuel is at least the number. -/
theorem natDecimalAux_spec (fuel n : Nat) (h : n ≤ fuel) :
    natDecimalAux fuel n ≠ []
      ∧ (∀ c ∈ natDecimalAux fuel n, '0' ≤ c ∧ c ≤ '9')
      ∧ decimalValue (natDecimalAux fuel n) = n := by
  induction fuel generalizing n with
  | zero =>
    have hn : n = 0 := by omega
    subst hn
    refine ⟨by simp [natDecimalAux], ?_, by decide⟩
    intro c hc
    simp only [natDecimalAux, List.mem_singleton] at hc
    subst hc
    exact digitChar_isDigit _
  | succ fuel ih =>
    unfold natDecimalAux
    by_cases hlt : n < 10
    · rw [if_pos hlt]
      refine ⟨by simp, ?_, ?_⟩
      · intro c hc
        simp only [List.mem_singleton] at hc
        subst hc
        exact digitChar_isDigit _
      · have := digitChar_value n hlt
        simp only [decimalValue, List.foldl_cons, List.foldl_nil, Nat.zero_mul, Nat.zero_add]
        exact this
    · rw [if_neg hlt]
      have hdiv : n / 10 ≤ fuel := by omega
      obtain ⟨_, h2, h3⟩ := ih (n / 10) hdiv
      refine ⟨by simp, ?_, ?_⟩
      · intro c hc
        rcases List.mem_append.mp hc with hc | hc
        · exact h2 c hc
        · simp only [List.mem_singleton] at hc
          subst hc
          exact digitChar_isDigit _
      · rw [decimalValue_append_singleton, h3, digitChar_value _ (Nat.mod_lt _ (by decide))]
        omega

theorem decimal_toList (n : Int) :
    (decimal n).toList = (if decide (n < 0) then ['-'] else []) ++ natDecimal n.natAbs := by
  unfold decimal
  by_cases h : n < 0
  · simp [h]
  · simp [h]

/-- The parse of the decimal notation of an integer of the `int` range. -/
theorem Atoi_decimal (n : Int) (hlo : -(2 ^ 63) ≤ n) (hhi : n < 2 ^ 63) :
    Atoi (decimal n).toList = (n, none) := by
  obtain ⟨h1, h2, h3⟩ := natDecimalAux_spec n.natAbs n.natAbs (Nat.le_refl _)
  rw [decimal_toList]
  have hr : if decide (n < 0) = true then decimalValue (natDecimal n.natAbs) ≤ 2 ^ 63
      else decimalValue (natDecimal n.natAbs) < 2 ^ 63 := by
    unfold natDecimal
    rw [h3]
    by_cases h : n < 0
    · simp only [h, decide_True, if_true]; omega
    · simp only [h, decide_False, Bool.false_eq_true, if_false]; omega
  rw [Atoi_sign_digits (decide (n < 0)) (natDecimal n.natAbs) h1 h2 hr]
  unfold natDecimal
  rw [h3]
  by_cases h : n < 0
  · simp only [h, decide_True, if_true]
    congr 1
    omega
  · simp only [h, decide_False, Bool.false_eq_true, if_false]
    congr 1
    omega

theorem withoutOnePercent_append (l : List Char) : withoutOnePercent (l ++ ['%']) = l := by
  simp [withoutOnePercent]

theorem float64OfInt_small (n : Int) (h : n.natAbs < 2 ^ 53) : float64OfInt n = n := by
  unfold float64OfInt
  simp only
  rw [if_pos h]

/-- The parse of a percentage written as the decimal notation of an integer of
the `int` range followed by a percent sign. -/
theorem convertPercentage_decimal (n : Int) (hlo : -(2 ^ 63) ≤ n) (hhi : n < 2 ^ 63) :
    ConvertPercentageToFloat64 (decimal n ++ "%") = ((float64OfInt n : ℚ), none) := by
  unfold ConvertPercentageToFloat64
  have hl : (decimal n ++ "%").toList = (decimal n).toList ++ ['%'] := by
    simp [String.toList]
  simp only [trimSuffix_percent, hl, withoutOnePercent_append, Atoi_decimal n hlo hhi]
  simp

/-- C8 as stated fails: 9007199254740993 (`2 ^ 53 + 1`) is in the `int` range,
and `ConvertPercentageToFloat64 "9007199254740993%"` returns, with no error, the
value 9007199254740992, because `float64` has a 53-bit significand. -/
theorem convertPercentage_large_not_exact :
    -(2 ^ 63) ≤ (9007199254740993 : Int) ∧ (9007199254740993 : Int) < 2 ^ 63
    ∧ decimal 9007199254740993 ++ "%" = "9007199254740993%"
    ∧ ConvertPercentageToFloat64 (decimal 9007199254740993 ++ "%")
        = ((9007199254740992 : ℚ), none)
    ∧ (ConvertPercentageToFloat64 (decimal 9007199254740993 ++ "%")).1
        ≠ ((9007199254740993 : Int) : ℚ) := by
  refine ⟨by decide, by decide, by decide, by decide, by decide⟩

/-- C8 amended: for every integer `n` of the `int` range,
`ConvertPercentageToFloat64 (decimal n ++ "%")` returns no error and the value
`float64(n)`; that value is `n` itself whenever `|n| ≤ 2 ^ 53`. -/
theorem convertPercentage_of_decimal (n : Int) (hlo : -(2 ^ 63) ≤ n) (hhi : n < 2 ^ 63) :
    ConvertPercentageToFloat64 (decimal n ++ "%") = ((float64OfInt n : ℚ), none)
    ∧ (n.natAbs ≤ 2 ^ 53 → ConvertPercentageToFloat64 (decimal n ++ "%") = ((n : ℚ), none)) := by
  have hmain := convertPercentage_decimal n hlo hhi
  refine ⟨hmain, fun hsmall => ?_⟩
  rw [hmain]
  rcases Nat.lt_or_ge n.natAbs (2 ^ 53) with h | h
  · rw [float64OfInt_small n h]
  · have habs : n.natAbs = 2 ^ 53 := Nat.le_antisymm hsmall h
    have hcases : n = 2 ^ 53 ∨ n = -(2 ^ 53) := by omega
    rcases hcases with rfl | rfl
    · have : float64OfInt (2 ^ 53) = 2 ^ 53 := by decide
      rw [this]
    · have : float64OfInt (-(2 ^ 53)) = -(2 ^ 53) := by decide
      rw [this]

/-- The witness of C8 amended: "11%" gives 11 with no error. -/
theorem convertPercentage_of_decimal_witness :
    decimal 11 ++ "%" = "11%"
    ∧ ConvertPercentageToFloat64 (decimal 11 ++ "%") = ((float64OfInt 11 : ℚ), none)
    ∧ ((11 : Int).natAbs ≤ 2 ^ 53 →
        ConvertPercentageToFloat64 (decimal 11 ++ "%") = (((11 : Int) : ℚ), none)) :=
  ⟨by decide, convertPercentage_of_decimal 11 (by decide) (by decide)⟩

/-- C9: `ConvertPercentageToFloat64 s` returns an error exactly when `s`, with one
trailing percent sign removed, is not an optionally signed decimal integer of the
`int` range, and the value returned with an error is 0; the texts "abc%", "",
"%", "5.5%" and "5%%" are rejected. -/
theorem convertPercentage_error_iff :
    (∀ s : String,
      ((ConvertPercentageToFloat64 s).2 ≠ none ↔ ¬ IsIntLiteral (withoutOnePercent s.toList))
      ∧ ((ConvertPercentageToFloat64 s).2 = none ∨ (ConvertPercentageToFloat64 s).1 = 0))
    ∧ ConvertPercentageToFloat64 "abc%" = (0, some NumError.ErrSyntax)
    ∧ ConvertPercentageToFloat64 "" = (0, some NumError.ErrSyntax)
    ∧ ConvertPercentageToFloat64 "%" = (0, some NumError.ErrSyntax)
    ∧ ConvertPercentageToFloat64 "5.5%" = (0, some NumError.ErrSyntax)
    ∧ ConvertPercentageToFloat64 "5%%" = (0, some NumError.ErrSyntax) := by
  refine ⟨fun s => ?_, by decide, by decide, by decide, by decide, by decide⟩
  unfold ConvertPercentageToFloat64
  simp only [trimSuffix_percent]
  generalize withoutOnePercent s.toList = t
  have hiff := Atoi_ok_iff t
  by_cases herr : (Atoi t).2 = none
  · have hlit := hiff.mp herr
    simp [herr, hlit]
  · have hlit : ¬ IsIntLiteral t := fun h => herr (hiff.mpr h)
    simp [herr, hlit]

/-! ## The shares (`getShares`) -/

theorem goLen_nonneg (s : String) : 0 ≤ goLen s := by
  unfold goLen
  exact Int.ofNat_nonneg _

theorem getMaxLengthLoop_ge_start (tab : List String) (m : Int) :
    m ≤ getMaxLengthLoop tab m := by
  induction tab generalizing m with
  | nil => simp [getMaxLengthLoop]
  | cons v rest ih =>
    simp only [getMaxLengthLoop]
    have := ih (if m < goLen v then goLen v else m)
    by_cases hlt : m < goLen v
    · rw [if_pos hlt] at this ⊢; omega
    · rw [if_neg hlt] at this ⊢; omega

theorem getMaxLengthLoop_ge_mem (tab : List String) (m : Int) :
    ∀ v ∈ tab, goLen v ≤ getMaxLengthLoop tab m := by
  induction tab generalizing m with
  | nil => intro v hv; simp at hv
  | cons w rest ih =>
    intro v hv
    simp only [getMaxLengthLoop]
    rcases List.mem_cons.mp hv with rfl | hv
    · have := getMaxLengthLoop_ge_start rest (if m < goLen v then goLen v else m)
      by_cases hlt : m < goLen v
      · rw [if_pos hlt] at this ⊢; omega
      · rw [if_neg hlt] at this ⊢; omega
    · exact ih _ v hv

theorem getMaxLengthLoop_attained (tab : List String) (m : Int) :
    getMaxLengthLoop tab m = m ∨ ∃ v ∈ tab, getMaxLengthLoop tab m = goLen v := by
  induction tab generalizing m with
  | nil => left; rfl
  | cons w rest ih =>
    simp only [getMaxLengthLoop]
    rcases ih (if m < goLen w then goLen w else m) with h | ⟨v, hv, h⟩
    · by_cases hlt : m < goLen w
      · rw [if_pos hlt] at h ⊢
        exact Or.inr ⟨w, List.mem_cons_self w rest, h⟩
      · rw [if_neg hlt] at h ⊢
        exact Or.inl h
    · exact Or.inr ⟨v, List.mem_cons_of_mem w hv, h⟩

/-- The maximum that `GetMaxLength` returns is the length of an element of a
non-empty list. -/
theorem getMaxLength_attained (tab : List String) (hne : tab ≠ []) :
    ∃ v ∈ tab, GetMaxLength tab = goLen v := by
  unfold GetMaxLength
  rcases getMaxLengthLoop_attained tab 0 with h | h
  · cases tab with
    | nil => exact absurd rfl hne
    | cons w rest =>
      refine ⟨w, List.mem_cons_self w rest, ?_⟩
      have h1 := getMaxLengthLoop_ge_mem (w :: rest) 0 w (List.mem_cons_self w rest)
      have h2 := goLen_nonneg w
      omega
  · exact h

/-- C13: `GetMaxLength` returns the maximum length among the strings of `tab`: it
is at least the length of every element, it is the length of some element when
`tab` is not empty, and it is 0 when `tab` is empty. -/
theorem GetMaxLength_is_maximum (tab : List String) :
    (∀ v ∈ tab, goLen v ≤ GetMaxLength tab)
    ∧ (tab = [] ∨ ∃ v ∈ tab, GetMaxLength tab = goLen v)
    ∧ GetMaxLength [] = 0 := by
  refine ⟨getMaxLengthLoop_ge_mem tab 0, ?_, rfl⟩
  by_cases hne : tab = []
  · exact Or.inl hne
  · exact Or.inr (getMaxLength_attained tab hne)

/-- The witness of C13, on three strings of 2, 4 and 1 bytes. -/
theorem GetMaxLength_is_maximum_witness :
    GetMaxLength ["ab", "abcd", "c"] = 4
    ∧ (∀ v ∈ ["ab", "abcd", "c"], goLen v ≤ GetMaxLength ["ab", "abcd", "c"])
    ∧ (["ab", "abcd", "c"] = [] ∨
        ∃ v ∈ ["ab", "abcd", "c"], GetMaxLength ["ab", "abcd", "c"] = goLen v) :=
  ⟨by decide, (GetMaxLength_is_maximum ["ab", "abcd", "c"]).1,
    (GetMaxLength_is_maximum ["ab", "abcd", "c"]).2.1⟩

theorem repeatLoop_space (n : Nat) :
    repeatLoop " " n = String.mk (List.replicate n ' ') := by
  induction n with
  | zero => rfl
  | succ n ih =>
    rw [repeatLoop, ih]
    apply String.ext
    simp [List.replicate_succ']

theorem goLen_spaces (n : Nat) : goLen (String.mk (List.replicate n ' ')) = n := by
  unfold goLen
  induction n with
  | zero => rfl
  | succ n ih =>
    simp only [String.utf8ByteSize_mk, List.replicate_succ, String.utf8Len_cons] at ih ⊢
    have h1 : (' ' : Char).utf8Size = 1 := by decide
    rw [h1]
    push_cast
    omega

/-- The result of `SetPadding`: the panic of `Repeat` on a negative gap, the gap
in spaces otherwise. -/
theorem setPadding_eq (tab : List String) (v : String) :
    SetPadding tab v =
      if GetMaxLength tab - goLen v + 10 < 0 then none
      else some (String.mk (List.replicate (GetMaxLength tab - goLen v + 10).toNat ' ')) := by
  unfold SetPadding Repeat getPadding DEFAULT_PADDING
  simp only [repeatLoop_space]

/-- C18: for every `tab` and every elements `v` and `w` of `tab`, `SetPadding`
does not fail and returns exactly `GetMaxLength tab - len v + 10` spaces, at
least 10, so that `len v + len (SetPadding tab v)` is the same for all elements;
and for every string `u` the repeat count is negative, a failure, exactly when
`len u > GetMaxLength tab + 10`. -/
theorem SetPadding_aligns (tab : List String) (v w : String) (hv : v ∈ tab) (hw : w ∈ tab) :
    SetPadding tab v
        = some (String.mk (List.replicate (GetMaxLength tab - goLen v + 10).toNat ' '))
    ∧ SetPadding tab w
        = some (String.mk (List.replicate (GetMaxLength tab - goLen w + 10).toNat ' '))
    ∧ goLen (String.mk (List.replicate (GetMaxLength tab - goLen v + 10).toNat ' '))
        = GetMaxLength tab - goLen v + 10
    ∧ 10 ≤ GetMaxLength tab - goLen v + 10
    ∧ goLen v + goLen (String.mk (List.replicate (GetMaxLength tab - goLen v + 10).toNat ' '))
        = goLen w + goLen (String.mk (List.replicate (GetMaxLength tab - goLen w + 10).toNat ' '))
    ∧ ∀ u : String, SetPadding tab u = none ↔ goLen u > GetMaxLength tab + 10 := by
  have h1 : goLen v ≤ GetMaxLength tab := getMaxLengthLoop_ge_mem tab 0 v hv
  have h2 : goLen w ≤ GetMaxLength tab := getMaxLengthLoop_ge_mem tab 0 w hw
  have hlenv := goLen_spaces (GetMaxLength tab - goLen v + 10).toNat
  have hlenw := goLen_spaces (GetMaxLength tab - goLen w + 10).toNat
  rw [Int.toNat_of_nonneg (by omega)] at hlenv hlenw
  refine ⟨?_, ?_, hlenv, by omega, by omega, ?_⟩
  · rw [setPadding_eq, if_neg (by omega)]
  · rw [setPadding_eq, if_neg (by omega)]
  · intro u
    rw [setPadding_eq]
    by_cases hneg : GetMaxLength tab - goLen u + 10 < 0
    · rw [if_pos hneg]
      exact ⟨fun _ => by omega, fun _ => rfl⟩
    · rw [if_neg hneg]
      exact ⟨fun h => by simp at h, fun h => by omega⟩

/-- The witness of C18: in the list "ab", "abcd", "c" the element "c" gets 13
spaces and the element "ab" gets 12, and both reach the column 14. -/
theorem SetPadding_aligns_witness :
    SetPadding ["ab", "abcd", "c"] "c" = some "             "
    ∧ SetPadding ["ab", "abcd", "c"] "ab" = some "            "
    ∧ goLen "c" + goLen (String.mk (List.replicate
          (GetMaxLength ["ab", "abcd", "c"] - goLen "c" + 10).toNat ' '))
        = goLen "ab" + goLen (String.mk (List.replicate
          (GetMaxLength ["ab", "abcd", "c"] - goLen "ab" + 10).toNat ' ')) :=
  ⟨by decide, by decide,
    (SetPadding_aligns ["ab", "abcd", "c"] "c" "ab" (by decide) (by decide)).2.2.2.2.1⟩

/-- C14, the code at the failing input: for the list "abc", "a" and the element
"a", `SetPadding` returns twelve spaces, a string that does not contain "a";
whatever the input, the string it returns holds spaces only. -/
theorem SetPadding_returns_spaces_only :
    SetPadding ["abc", "a"] "a" = some "            "
    ∧ ¬ ("a".toList <:+: "            ".toList)
    ∧ ∀ (tab : List String) (v : String),
        SetPadding tab v = none
          ∨ ∃ n : Nat, SetPadding tab v = some (String.mk (List.replicate n ' ')) := by
  refine ⟨by decide, by decide, ?_⟩
  intro tab v
  rw [setPadding_eq]
  by_cases hneg : GetMaxLength tab - goLen v + 10 < 0
  · left; rw [if_pos hneg]
  · right; rw [if_neg hneg]; exact ⟨_, rfl⟩

/-! ## The failure of `loadTaxYear` -/

/-- C16: `loadTaxYear` fails on `TaxList[0]` exactly when `TaxList` is empty and
`cfg.Tax` has no tranches beforehand; otherwise it completes, and a completed
call changes no field other than `Tax`: `Name`, `Version` and `TaxList` are
kept. -/
theorem loadTaxYear_fails_iff (y : Int) (cfg : Config) :
    (loadTaxYear y cfg = none ↔ cfg.TaxList = [] ∧ cfg.Tax.Tranches = [])
    ∧ (loadTaxYear y cfg = none ∨ ∃ t, loadTaxYear y cfg = some { cfg with Tax := t }) := by
  unfold loadTaxYear
  simp only
  cases hl : cfg.TaxList with
  | nil =>
    simp only [loadTaxYearLoop, true_and]
    by_cases hz : cfg.Tax.Tranches.length = 0
    · rw [if_pos hz]
      exact ⟨⟨fun _ => List.length_eq_zero.mp hz, fun _ => rfl⟩, Or.inl rfl⟩
    · rw [if_neg hz]
      exact ⟨⟨fun h => by simp at h, fun h => absurd (by simp [h]) hz⟩, Or.inr ⟨cfg.Tax, rfl⟩⟩
  | cons first rest =>
    constructor
    · constructor
      · intro h
        split at h <;> simp at h
      · intro h
        exact absurd h.1 (by simp)
    · right
      by_cases hz : (loadTaxYearLoop y cfg.Tax (first :: rest)).Tranches.length = 0
      · rw [if_pos hz]
        exact ⟨first, rfl⟩
      · rw [if_neg hz]
        exact ⟨loadTaxYearLoop y cfg.Tax (first :: rest), rfl⟩

/-- The witness of C16: a configuration with no table at all fails, the
configuration of `tax_test.go` does not. -/
theorem loadTaxYear_fails_iff_witness :
    loadTaxYear 2023 { testConfigUnselected with TaxList := [] } = none
    ∧ loadTaxYear 2023 testConfigUnselected ≠ none :=
  ⟨(loadTaxYear_fails_iff 2023 _).1.mpr ⟨rfl, rfl⟩,
    fun h => absurd ((loadTaxYear_fails_iff 2023 testConfigUnselected).1.mp h).1 (by decide)⟩

/-! ## The optional percent sign -/

theorem withoutOnePercent_of_no_percent (l : List Char) (h : l.getLast? ≠ some '%') :
    withoutOnePercent l = l := by
  unfold withoutOnePercent
  rw [if_neg h]

/-- C17: for every string `s` that does not end in a percent sign,
`ConvertPercentageToFloat64 s` and `ConvertPercentageToFloat64 (s ++ "%")`
return the same value and the same error. -/
theorem convertPercentage_suffix_optional (s : String) (h : s.toList.getLast? ≠ some '%') :
    ConvertPercentageToFloat64 (s ++ "%") = ConvertPercentageToFloat64 s := by
  unfold ConvertPercentageToFloat64
  have hl : (s ++ "%").toList = s.toList ++ ['%'] := by
    simp [String.toList]
  simp only [trimSuffix_percent, hl, withoutOnePercent_append,
    withoutOnePercent_of_no_percent s.toList h]

/-- The witness of C17: "11" and "11%" both give 11, "-5" and "-5%" both give -5,
with no error. -/
theorem convertPercentage_suffix_optional_witness :
    ConvertPercentageToFloat64 ("11" ++ "%") = ConvertPercentageToFloat64 "11"
    ∧ ConvertPercentageToFloat64 "11" = (11, none)
    ∧ ConvertPercentageToFloat64 "11%" = (11, none)
    ∧ ConvertPercentageToFloat64 ("-5" ++ "%") = ConvertPercentageToFloat64 "-5"
    ∧ ConvertPercentageToFloat64 "-5%" = (-5, none) :=
  ⟨convertPercentage_suffix_optional "11" (by decide), by decide, by decide,
    convertPercentage_suffix_optional "-5" (by decide), by decide⟩

/-! ## The upper bound of the default table -/

/-- C11, the code at the failing input: whatever the configuration before, the
last tranche of the table that `LoadDefaultConfiguration` installs has the upper
bound 1000000, which is not `math.MaxInt64`, so `Reload` labels it with the
number and the currency and not with the dash of an open-ended tranche; the last
tranche of the table `CONFIG.Tax` of `tax_test.go` has the bound
`math.MaxInt64` and gets the dash. -/
theorem default_table_last_max_is_capped (cfg : Config) (convertIntToString : Int → String)
    (currency : String) :
    (LoadDefaultConfiguration cfg).Tax.Tranches.getLast?
      = some { Min := 158123, Max := 1000000, Rate := "45%" }
    ∧ (1000000 : Int) ≠ maxInt64
    ∧ maxTrancheLabel convertIntToString currency { Min := 158123, Max := 1000000, Rate := "45%" }
      = convertIntToString 1000000 ++ " " ++ currency
    ∧ testTax2022.Tranches.getLast? = some { Min := 160337, Max := maxInt64, Rate := "45%" }
    ∧ maxTrancheLabel convertIntToString currency { Min := 160337, Max := maxInt64, Rate := "45%" }
      = "-" := by
  have htab : (LoadDefaultConfiguration cfg).Tax = defaultTax := rfl
  rw [htab]
  refine ⟨by decide, by decide, ?_, by decide, ?_⟩
  · unfold maxTrancheLabel
    rw [if_neg (by decide)]
  · unfold maxTrancheLabel
    rw [if_pos rfl]

/-! ## The inputs of `calculate` -/

/-- C15, the code at the failing input: the single parent of two children has 2.5
shares, and whatever `ConvertInt64ToString` is, the text that `calculate` sets on
the `Shares` binding for a result with 2.5 shares is the text of the integer 2,
the same as for a result with 2 shares; for the 4.5 shares that `tax_test.go`
expects of a single parent of four children it is the text of 4. -/
theorem sharesLabel_truncates (convertInt64ToString : Int → String) :
    getShares { Income := 30000, Remainder := 0, IsInCouple := false, Children := 2 } = 5 / 2
    ∧ resultOfSingleParent.Shares = 5 / 2
    ∧ sharesLabel convertInt64ToString resultOfSingleParent = convertInt64ToString 2
    ∧ sharesLabel convertInt64ToString resultOfSingleParent
      = sharesLabel convertInt64ToString { resultOfSingleParent with Shares := 2 }
    ∧ sharesLabel convertInt64ToString { resultOfSingleParent with Shares := 9 / 2 }
      = convertInt64ToString 4 := by
  have h1 : int64OfFloat (5 / 2) = 2 := by
    unfold int64OfFloat
    norm_num
  have h2 : int64OfFloat 2 = 2 := by
    unfold int64OfFloat
    norm_num
  have h3 : int64OfFloat (9 / 2) = 4 := by
    unfold int64OfFloat
    norm_num
  refine ⟨by norm_num [getShares, childrenShares], rfl, ?_, ?_, ?_⟩
  · show convertInt64ToString (int64OfFloat (5 / 2)) = convertInt64ToString 2
    rw [h1]
  · show convertInt64ToString (int64OfFloat (5 / 2)) = convertInt64ToString (int64OfFloat 2)
    rw [h1, h2]
  · show convertInt64ToString (int64OfFloat (9 / 2)) = convertInt64ToString 4
    rw [h3]

end CorposChristie
